import Mathlib

/-! Verification of the test selection and scheduling plugin (`pytest-lisa/lisa.py`).

The development shallowly embeds the plugin's data model and algorithms:
* the criteria matcher inside `pytest_collection_modifyitems`,
* the stateful `select` helper and the criteria/items double loop,
* the fallback and final exclusion filter,
* `validate_mark` together with the per-item validation loop,
* `LISAScheduling._split_scope` and its regex token extraction.

Python-specific behaviour is embedded faithfully: truthiness guards
(`c["name"] and ...`), `range` over a possibly negative length, `list.count`,
`str in str` substring tests, and `re.findall` for the pattern `\[(\w+)\]`.
-/

namespace Lisa

/-- Validated LISA metadata of a test item: the `kwargs` of the `lisa` marker
after `lisa_schema.validate` filled the defaults for `features` and `tags`. -/
structure Metadata where
  platform : String
  category : String
  area : String
  priority : Int
  features : List String
  tags : List String
deriving DecidableEq, Repr

/-- A collected pytest item. `ident` models Python object identity (two
distinct collected items are never `==` even if they display the same name);
`name` is the display identifier, `moduleName` the qualified module path
(`item.module.__name__`), and `mark` the closest `lisa` marker, absent for
non-annotated items such as static analysis tests. -/
structure Item where
  ident : Nat
  name : String
  moduleName : String
  mark : Option Metadata
deriving DecidableEq, Repr

/-- One criteria record of the playbook, with the schema defaults:
`name`/`module`/`area`/`category`/`priority` default to `None`, `tags` to the
empty list, `times` to `1` and `exclude` to `False`. -/
structure Criteria where
  name : Option String
  module : Option String
  area : Option String
  category : Option String
  priority : Option Int
  tags : List String
  times : Int
  exclude : Bool
deriving DecidableEq, Repr

/-- Does the pattern appear at the head of the text? (helper for the Python
substring test `needle in hay`). -/
def leadMatch : List Char → List Char → Bool
  | [], _ => true
  | _ :: _, [] => false
  | a :: as, b :: bs => a == b && leadMatch as bs

/-- Does the pattern appear anywhere in the text? -/
def subMatch (p : List Char) : List Char → Bool
  | [] => leadMatch p []
  | c :: rest => leadMatch p (c :: rest) || subMatch p rest

/-- Python's `needle in hay` on strings: substring containment. -/
def pyInStr (needle hay : String) : Bool :=
  subMatch needle.data hay.data

/-- ASCII lowercasing of one character. -/
def lowerChar (c : Char) : Char :=
  if 'A' ≤ c && c ≤ 'Z' then Char.ofNat (c.toNat + 32) else c

/-- Python's `str.casefold`, embedded as ASCII lowercasing (the markers and
areas used by the plugin are ASCII). -/
def pyCasefold (s : String) : String := String.mk (s.data.map lowerChar)

/-- Clause `c["name"] and c["name"] in item.name`: a `None` or empty criteria name is
falsy and contributes `False` to the `any` list. -/
def nameClause (c : Criteria) (it : Item) : Bool :=
  match c.name with
  | none => false
  | some s => !s.isEmpty && pyInStr s it.name

/-- Clause `c["module"] and c["module"] in item.module.__name__`. -/
def moduleClause (c : Criteria) (it : Item) : Bool :=
  match c.module with
  | none => false
  | some s => !s.isEmpty && pyInStr s it.moduleName

/-- Clause `c["area"] and c["area"].casefold() == i["area"].casefold()`. -/
def areaClause (c : Criteria) (m : Metadata) : Bool :=
  match c.area with
  | none => false
  | some s => !s.isEmpty && (pyCasefold s == pyCasefold m.area)

/-- Clause `c["category"] and c["category"].casefold() == i["category"].casefold()`. -/
def categoryClause (c : Criteria) (m : Metadata) : Bool :=
  match c.category with
  | none => false
  | some s => !s.isEmpty && (pyCasefold s == pyCasefold m.category)

/-- Clause `c["priority"] and c["priority"] == i["priority"]`: the integer `0` is
falsy in Python, so a criteria priority of `0` short-circuits to `False`. -/
def priorityClause (c : Criteria) (m : Metadata) : Bool :=
  match c.priority with
  | none => false
  | some p => p != 0 && p == m.priority

/-- Python's `set(a) <= set(b)` on string lists: every element of `a` occurs in `b`. -/
def subsetList (a b : List String) : Bool :=
  a.all fun x => b.contains x

/-- Clause `c["tags"] and set(c["tags"]) <= set(i["tags"])`: an empty tag list is
falsy and contributes `False`. -/
def tagsClause (c : Criteria) (m : Metadata) : Bool :=
  !c.tags.isEmpty && subsetList c.tags m.tags

/-- The matching test of `pytest_collection_modifyitems`: items without a
`lisa` marker are skipped (`continue`), otherwise the record matches when
`any` of the six field clauses holds. -/
def matchesItem (c : Criteria) (it : Item) : Bool :=
  match it.mark with
  | none => false
  | some m =>
      nameClause c it || moduleClause c it || areaClause c m ||
      categoryClause c m || priorityClause c m || tagsClause c m

/-- The mutable state of the selection loop: the ordered `included` list
(with repetition) and the `excluded` list. -/
structure SelState where
  included : List Item
  excluded : List Item
deriving DecidableEq, Repr

/-- The nested `select` helper: exclusion appends to `excluded`; inclusion
appends the item `times - included.count(item)` more times (Python's `range`
of a negative number is empty, hence `Int.toNat`). -/
def select (st : SelState) (item : Item) (times : Int) (exclude : Bool) : SelState :=
  if exclude then
    { st with excluded := st.excluded ++ [item] }
  else
    { st with included :=
        st.included ++ List.replicate (times - (st.included.count item : Int)).toNat item }

/-- The inner loop `for item in items` for one criteria record: a non-matching
item (in particular an unmarked one) is skipped. -/
def applyCriteria (items : List Item) (st : SelState) (c : Criteria) : SelState :=
  items.foldl (fun st it => if matchesItem c it then select st it c.times c.exclude else st) st

/-- The outer loop `for c in playbook.playbook.get("criteria", [])`. -/
def runCriteria (criteria : List Criteria) (items : List Item) : SelState :=
  criteria.foldl (applyCriteria items) ⟨[], []⟩

/-- Fallback `if not included: included = items` — taken when nothing was
selected for inclusion. -/
def finalIncluded (criteria : List Criteria) (items : List Item) : List Item :=
  let st := runCriteria criteria items
  if st.included.isEmpty then items else st.included

/-- Final filter `items[:] = [i for i in included if i not in excluded]` — the
ordered selection. -/
def selectItems (criteria : List Criteria) (items : List Item) : List Item :=
  (finalIncluded criteria items).filter
    fun i => !((runCriteria criteria items).excluded.contains i)

/-! Metadata validation: `validate_mark` and the validation loop. -/

/-- The raw `lisa` marker of an item before validation: `argCount` is the
number of positional arguments, and each `none` keyword field models a
missing key in the marker's kwargs. -/
structure RawMark where
  argCount : Nat
  platform : Option String
  category : Option String
  area : Option String
  priority : Option Int
  features : Option (List String)
  tags : Option (List String)
deriving DecidableEq, Repr

/-- A collected item as seen by the validation loop: a display name and an
optional raw marker. -/
structure RawItem where
  name : String
  mark : Option RawMark
deriving DecidableEq, Repr

/-- The `Or(...)` of allowed categories in `lisa_schema`. -/
def validCategory (c : String) : Bool :=
  ["Functional", "Performance", "Stress", "Community", "Longhaul"].contains c

/-- The `Or(0, 1, 2, 3)` of allowed priorities in `lisa_schema`. -/
def validPriority (p : Int) : Bool :=
  p == 0 || p == 1 || p == 2 || p == 3

/-- Exception classes a failing `validate_mark` raises: the `assert` on
positional arguments raises `AssertionError`, a missing required key raises
`SchemaMissingKeyError`, and an invalid value for an enumerated key
(`category`/`priority` failing their `Or(...)`) raises plain
`SchemaError`. -/
inductive MarkError where
  | assertionError
  | missingKey
  | schemaError
deriving DecidableEq, Repr

/-- Schema validation `lisa_schema.validate` on the marker's kwargs,
returning the exception it raises, or `none` on success. The schema
library's dict validation raises value errors for keys present in the data
during its data pass and checks required-key coverage only afterwards, so a
bad enumerated value is reported before a missing key; `features` and
`tags` are optional with defaults, and extra keys are ignored. -/
def lisa_schema_error (m : RawMark) : Option MarkError :=
  if (match m.category with | some c => !validCategory c | none => false) then
    some MarkError.schemaError
  else if (match m.priority with | some p => !validPriority p | none => false) then
    some MarkError.schemaError
  else if m.platform.isNone || m.category.isNone || m.area.isNone || m.priority.isNone then
    some MarkError.missingKey
  else none

/-- Validation `validate_mark`: an absent marker passes trivially (`none`);
positional arguments fail the assertion; otherwise the schema validates the
kwargs. The result is the exception raised, or `none` on success. -/
def validate_mark : Option RawMark → Option MarkError
  | none => none
  | some m =>
      if m.argCount ≠ 0 then some MarkError.assertionError
      else lisa_schema_error m

/-- Which exceptions the validation loop's
`except (SchemaMissingKeyError, AssertionError)` clause catches: plain
`SchemaError` is not among them. -/
def markErrorCaught : MarkError → Bool
  | MarkError.assertionError => true
  | MarkError.missingKey => true
  | MarkError.schemaError => false

/-- The first item whose marker raises — where the validation loop of
`pytest_collection_modifyitems` stops; `none` means every item
validated. -/
def firstInvalid (items : List RawItem) : Option RawItem :=
  items.find? fun it => (validate_mark it.mark).isSome

/-- How the run leaves the validation loop: collection proceeds, or
`pytest.exit` aborts with a message naming the offending item, or an
uncaught exception escapes the hook and aborts the run without that
message. -/
inductive RunOutcome where
  | proceeds
  | namedExit (name : String)
  | uncaughtError
deriving DecidableEq, Repr

/-- The validation loop: the first failing item aborts the run — through
the item-naming `pytest.exit` when its exception is caught, as an uncaught
error otherwise. -/
def validationOutcome (items : List RawItem) : RunOutcome :=
  match firstInvalid items with
  | none => RunOutcome.proceeds
  | some it =>
      match validate_mark it.mark with
      | some e =>
          if markErrorCaught e then RunOutcome.namedExit it.name
          else RunOutcome.uncaughtError
      | none => RunOutcome.proceeds

/-! Scope extraction: `LISAScheduling._split_scope`. -/

/-- A `\w` character of the scheduling regex `\[(\w+)\]`, in its ASCII
reading: a letter, a digit or an underscore. -/
def isWordChar (c : Char) : Bool :=
  c.isAlphanum || c == '_'

/-- One-pass scanner for `re.findall(r"\[(\w+)\]", s)`. The mode is `none`
while looking for an opening `[`, and `some acc` while inside `[`, with `acc`
the word characters read so far in reverse. A nonempty run closed by `]`
emits its capture and scanning resumes after the `]`. When the run is
interrupted by a non-word, non-`]` character the regex match at that `[`
fails and the engine resumes scanning right after the `[`; since every
consumed character was a word character (so neither `[` nor `]`), resuming
there visits only characters the `none` mode would skip, which is what
continuing at the current character does. -/
def scanToks : Option (List Char) → List Char → List String
  | _, [] => []
  | none, c :: rest =>
      if c = '[' then scanToks (some []) rest else scanToks none rest
  | some acc, c :: rest =>
      if isWordChar c then scanToks (some (c :: acc)) rest
      else if c = ']' ∧ acc ≠ [] then String.mk acc.reverse :: scanToks none rest
      else if c = '[' then scanToks (some []) rest
      else scanToks none rest

/-- Captures of `re.findall(r"\[(\w+)\]", s)`: the groups of every
non-overlapping match, scanned left to right. -/
def findToks (l : List Char) : List String :=
  scanToks none l

/-- Modelled from the spec: the fallback inherited from the third-party
`LoadScopeScheduling._split_scope`, which the source and the spec document
as `nodeid.rsplit("::", 1)[0]`. This helper returns `some p` with `p` the
text before the last occurrence of `::`, or `none` when `::` does not
occur. -/
def rsplitAux : List Char → Option (List Char)
  | [] => none
  | c :: rest =>
      match rsplitAux rest with
      | some p => some (c :: p)
      | none =>
          if c = ':' then
            match rest with
            | ':' :: _ => some []
            | _ => none
          else none

/-- Modelled from the spec: `nodeid.rsplit("::", 1)[0]` — the text before
the last `::`, or the whole identifier when there is none. -/
def rsplitScope (s : String) : String :=
  match rsplitAux s.data with
  | some p => String.mk p
  | none => s

/-- Method `LISAScheduling._split_scope`: with a `[` in the identifier, the scope is
the `"/"`-join of the regex captures; otherwise the `LoadScopeScheduling`
fallback. -/
def split_scope (nodeid : String) : String :=
  if nodeid.data.contains '[' then String.intercalate "/" (findToks nodeid.data)
  else rsplitScope nodeid

/-! Concrete instances used by the witnesses and counterexamples. -/

/-- A validated metadata record with the given priority and area. -/
def mdOf (p : Int) (a : String) : Metadata :=
  ⟨"Azure", "Functional", a, p, [], []⟩

def prio0meta : Metadata := mdOf 0 "net"

def prio1meta : Metadata := mdOf 1 "net"

def prio0item : Item := ⟨1, "t0", "mod", some prio0meta⟩

def prio0crit : Criteria := ⟨none, none, none, none, some 0, [], 1, false⟩

def prio1crit : Criteria := ⟨none, none, none, none, some 1, [], 1, false⟩

def emptyCrit : Criteria := ⟨none, none, none, none, none, [], 1, false⟩

def plainItem : Item := ⟨7, "t", "m", some (mdOf 1 "net")⟩

def negTimesCrit : Criteria := ⟨some "x", none, none, none, none, [], -1, false⟩

def negTimesItem : Item := ⟨1, "x1", "mod", some (mdOf 1 "net")⟩

def cwA : Criteria := ⟨some "w", none, none, none, none, [], 2, false⟩

def cwB : Criteria := ⟨some "w", none, none, none, none, [], 3, false⟩

def cwItem : Item := ⟨1, "w1", "mod", some (mdOf 1 "net")⟩

def exCrit1 : Criteria := ⟨some "v", none, none, none, none, [], 3, false⟩

def exCrit2 : Criteria := ⟨none, none, some "xdp", none, none, [], 1, true⟩

def exItem : Item := ⟨1, "v1", "mod", some (mdOf 1 "xdp")⟩

def xdpCrit : Criteria := ⟨none, none, some "xdp", none, none, [], 1, true⟩

def xd1 : Item := ⟨1, "xd1", "mod", some (mdOf 1 "xdp")⟩

def xd2 : Item := ⟨2, "xd2", "mod", some (mdOf 1 "net")⟩

def xd3 : Item := ⟨3, "xd3", "mod", some (mdOf 2 "xdp")⟩

def xd4 : Item := ⟨4, "xd4", "mod", some (mdOf 2 "disk")⟩

def xd5 : Item := ⟨5, "xd5", "mod", none⟩

def s1t1 : Item := ⟨1, "t1", "mod", some (mdOf 1 "net")⟩

def s1t2 : Item := ⟨2, "t2", "mod", some (mdOf 2 "net")⟩

def s1t3 : Item := ⟨3, "t3", "mod", some (mdOf 1 "disk")⟩

def s1crit : Criteria := ⟨none, none, none, none, some 1, [], 2, false⟩

def badMark : RawMark :=
  ⟨0, some "Azure", some "functional", some "net", some 1, none, none⟩

def badItem : RawItem := ⟨"t_bad", some badMark⟩

def argsBadMark : RawMark :=
  ⟨1, some "Azure", some "Functional", some "net", some 1, none, none⟩

def argsBadItem : RawItem := ⟨"t_args", some argsBadMark⟩

def lowCrit : Criteria := ⟨some "z", none, none, none, none, [], 0, false⟩

def lowItem : Item := ⟨3, "z9", "mod", some (mdOf 2 "net")⟩

/-! Lemmas about the selection engine. -/

theorem select_true_included (st : SelState) (it : Item) (t : Int) :
    (select st it t true).included = st.included := rfl

theorem select_false_excluded (st : SelState) (it : Item) (t : Int) :
    (select st it t false).excluded = st.excluded := rfl

theorem count_select_self (st : SelState) (i : Item) (t : Int) :
    (select st i t false).included.count i = max (st.included.count i) t.toNat := by
  simp only [select, if_neg (Bool.false_ne_true), List.count_append,
    List.count_replicate_self]
  omega

theorem count_select_ne (st : SelState) (it i : Item) (t : Int) (h : it ≠ i) :
    (select st it t false).included.count i = st.included.count i := by
  simp [select, List.count_append, List.count_replicate, h]

theorem applyCriteria_cons (c : Criteria) (hd : Item) (tl : List Item) (st : SelState) :
    applyCriteria (hd :: tl) st c =
      applyCriteria tl (if matchesItem c hd then select st hd c.times c.exclude else st) c := rfl

/-- The effect of one criteria record on the running count of one item:
a matching, non-excluding record tops the count up to `c.times` (clamped at
zero); everything else leaves the count alone. -/
theorem applyCriteria_count (c : Criteria) (i : Item) :
    ∀ (items : List Item) (st : SelState),
      (applyCriteria items st c).included.count i =
        if matchesItem c i = true ∧ c.exclude = false ∧ i ∈ items then
          max (st.included.count i) c.times.toNat
        else st.included.count i := by
  intro items
  induction items with
  | nil => intro st; simp [applyCriteria]
  | cons hd tl ih =>
      intro st
      rw [applyCriteria_cons, ih]
      by_cases hhd : hd = i
      · subst hhd
        by_cases hm : matchesItem c hd = true
        · by_cases hex : c.exclude = true
          · have hex' : ¬ c.exclude = false := by simp [hex]
            simp [hm, hex', select_true_included, hex]
          · have hex' : c.exclude = false := by
              cases h : c.exclude
              · rfl
              · exact absurd h hex
            simp only [hm, hex', if_pos, if_true, List.mem_cons, true_or,
              true_and, and_true]
            rw [count_select_self]
            by_cases htl : hd ∈ tl
            · simp only [htl, if_true]; omega
            · simp only [htl, if_false]
        · simp [hm]
      · have hmem : (i ∈ hd :: tl) ↔ (i ∈ tl) := by
          constructor
          · intro h
            rcases List.mem_cons.mp h with h | h
            · exact absurd h.symm hhd
            · exact h
          · intro h
            exact List.mem_cons_of_mem _ h
        have hcnt :
            (if matchesItem c hd then select st hd c.times c.exclude else st).included.count i
              = st.included.count i := by
          by_cases hm : matchesItem c hd = true
          · cases hex : c.exclude
            · simp [hm, hex, count_select_ne st hd i c.times hhd]
            · simp [hm, hex, select_true_included]
          · simp [hm]
        rw [hcnt]
        by_cases hc1 : matchesItem c i = true ∧ c.exclude = false ∧ i ∈ tl
        · have hc2 : matchesItem c i = true ∧ c.exclude = false ∧ i ∈ hd :: tl :=
            ⟨hc1.1, hc1.2.1, hmem.mpr hc1.2.2⟩
          rw [if_pos hc1, if_pos hc2]
        · have hc2 : ¬(matchesItem c i = true ∧ c.exclude = false ∧ i ∈ hd :: tl) := by
            intro h
            exact hc1 ⟨h.1, h.2.1, hmem.mp h.2.2⟩
          rw [if_neg hc1, if_neg hc2]

/-- The running count of an item never decreases across one criteria pass. -/
theorem applyCriteria_count_mono (c : Criteria) (i : Item) (items : List Item)
    (st : SelState) :
    st.included.count i ≤ (applyCriteria items st c).included.count i := by
  rw [applyCriteria_count]
  split
  · exact Nat.le_max_left _ _
  · exact Nat.le_refl _

/-- Membership in `excluded` after one criteria pass: only an excluding
record that matches the item, with the item among those iterated over, can
add it. -/
theorem applyCriteria_excluded_mem (c : Criteria) (i : Item) :
    ∀ (items : List Item) (st : SelState),
      (i ∈ (applyCriteria items st c).excluded ↔
        i ∈ st.excluded ∨ (c.exclude = true ∧ matchesItem c i = true ∧ i ∈ items)) := by
  intro items
  induction items with
  | nil => intro st; simp [applyCriteria]
  | cons hd tl ih =>
      intro st
      rw [applyCriteria_cons, ih]
      have hstep :
          i ∈ (if matchesItem c hd then select st hd c.times c.exclude else st).excluded ↔
            i ∈ st.excluded ∨ (c.exclude = true ∧ matchesItem c hd = true ∧ i = hd) := by
        by_cases hm : matchesItem c hd = true
        · cases hex : c.exclude
          · simp [hm, hex, select_false_excluded]
          · simp [hm, hex, select]
        · simp [hm]
      rw [hstep, List.mem_cons]
      constructor
      · rintro ((h | ⟨he, hmh, rfl⟩) | ⟨he, hmi, hit⟩)
        · exact Or.inl h
        · exact Or.inr ⟨he, hmh, Or.inl rfl⟩
        · exact Or.inr ⟨he, hmi, Or.inr hit⟩
      · rintro (h | ⟨he, hmi, rfl | hit⟩)
        · exact Or.inl (Or.inl h)
        · exact Or.inl (Or.inr ⟨he, hmi, rfl⟩)
        · exact Or.inr ⟨he, hmi, hit⟩

/-- Membership in the final `excluded` list. -/
theorem runCriteria_excluded_mem (i : Item) (items : List Item) :
    ∀ (cs : List Criteria),
      (i ∈ (runCriteria cs items).excluded ↔
        ∃ c ∈ cs, c.exclude = true ∧ matchesItem c i = true ∧ i ∈ items) := by
  have main : ∀ (cs : List Criteria) (st : SelState),
      i ∈ (cs.foldl (applyCriteria items) st).excluded ↔
        i ∈ st.excluded ∨ ∃ c ∈ cs, c.exclude = true ∧ matchesItem c i = true ∧ i ∈ items := by
    intro cs
    induction cs with
    | nil => intro st; simp
    | cons c cs ih =>
        intro st
        rw [List.foldl_cons, ih, applyCriteria_excluded_mem]
        constructor
        · rintro ((h | h) | ⟨d, hd1, hd2⟩)
          · exact Or.inl h
          · exact Or.inr ⟨c, List.mem_cons_self c cs, h⟩
          · exact Or.inr ⟨d, List.mem_cons_of_mem c hd1, hd2⟩
        · rintro (h | ⟨d, hd1, hd2⟩)
          · exact Or.inl (Or.inl h)
          · rcases List.mem_cons.mp hd1 with h | h
            · subst h
              exact Or.inl (Or.inr hd2)
            · exact Or.inr ⟨d, h, hd2⟩
  intro cs
  rw [runCriteria, main]
  simp

/-- The running count of an item across the whole criteria list is the fold
of clamped top-ups over the `times` of the matching non-excluding records. -/
theorem foldl_applyCriteria_count (items : List Item) (i : Item) (hi : i ∈ items) :
    ∀ (cs : List Criteria) (st : SelState),
      (cs.foldl (applyCriteria items) st).included.count i =
        ((cs.filter fun c => matchesItem c i && !c.exclude).map fun c => c.times).foldl
          (fun a t => max a t.toNat) (st.included.count i) := by
  intro cs
  induction cs with
  | nil => intro st; simp
  | cons c cs ih =>
      intro st
      rw [List.foldl_cons, ih, applyCriteria_count]
      by_cases hp : (matchesItem c i && !c.exclude) = true
      · have hp2 : matchesItem c i = true ∧ c.exclude = false := by
          have h := hp
          simp only [Bool.and_eq_true, Bool.not_eq_true'] at h
          exact h
        have hm := hp2.1
        have hex := hp2.2
        rw [if_pos ⟨hm, hex, hi⟩]
        simp [List.filter_cons, hp]
      · have hcond : ¬(matchesItem c i = true ∧ c.exclude = false ∧ i ∈ items) := by
          rintro ⟨h1, h2, -⟩
          exact hp (by simp [h1, h2])
        rw [if_neg hcond]
        simp [List.filter_cons, hp]

/-- Casting the clamped Nat-valued fold to the integers: the result is the
maximum of zero and the `times` values. -/
theorem foldl_toNat_cast (ts : List Int) :
    ∀ n : Nat,
      ((ts.foldl (fun a t => max a t.toNat) n : Nat) : Int) =
        ts.foldl (fun a t => max a t) (n : Int) := by
  induction ts with
  | nil => intro n; simp
  | cons t ts ih =>
      intro n
      rw [List.foldl_cons, List.foldl_cons, ih]
      congr 1
      omega

/-- A pass of a purely excluding record never touches `included`. -/
theorem applyCriteria_included_of_exclude (c : Criteria) (hex : c.exclude = true) :
    ∀ (items : List Item) (st : SelState),
      (applyCriteria items st c).included = st.included := by
  intro items
  induction items with
  | nil => intro st; simp [applyCriteria]
  | cons hd tl ih =>
      intro st
      rw [applyCriteria_cons, ih]
      by_cases hm : matchesItem c hd = true
      · simp [hm, hex, select_true_included]
      · simp [hm]

/-- A record whose matches are all non-excluding with non-positive `times`
leaves the whole selection state untouched. -/
theorem applyCriteria_id_of_low_times (c : Criteria) :
    ∀ (items : List Item) (st : SelState),
      (∀ i ∈ items, matchesItem c i = true → c.exclude = false ∧ c.times ≤ 0) →
      applyCriteria items st c = st := by
  intro items
  induction items with
  | nil => intro st _; simp [applyCriteria]
  | cons hd tl ih =>
      intro st h
      rw [applyCriteria_cons]
      have hstep : (if matchesItem c hd then select st hd c.times c.exclude else st) = st := by
        by_cases hm : matchesItem c hd = true
        · rcases h hd (List.mem_cons_self hd tl) hm with ⟨hex, ht⟩
          have hn : (c.times - (st.included.count hd : Int)).toNat = 0 := by omega
          cases st with
          | mk inc exc => simp [hm, hex, select, hn]
        · simp [hm]
      rw [hstep]
      exact ih st fun i hi => h i (List.mem_cons_of_mem hd hi)

/-- The sweep `find?` locates a raising element exactly when one exists. -/
theorem firstInvalid_spec :
    ∀ (items : List RawItem),
      ((∃ it ∈ items, (validate_mark it.mark).isSome = true) ↔
        ∃ j, firstInvalid items = some j ∧ (validate_mark j.mark).isSome = true) := by
  intro items
  induction items with
  | nil => simp [firstInvalid]
  | cons hd tl ih =>
      by_cases hv : (validate_mark hd.mark).isSome = true
      · constructor
        · intro _
          exact ⟨hd, by simp [firstInvalid, List.find?_cons, hv], hv⟩
        · intro _
          exact ⟨hd, List.mem_cons_self hd tl, hv⟩
      · have hp : ((validate_mark hd.mark).isSome) = false := by
          cases h : (validate_mark hd.mark).isSome
          · rfl
          · exact absurd h hv
        have hrw : firstInvalid (hd :: tl) = firstInvalid tl := by
          simp [firstInvalid, List.find?_cons, hp]
        rw [hrw, ← ih]
        constructor
        · rintro ⟨it, hit, hf⟩
          rcases List.mem_cons.mp hit with h | h
          · subst h
            exact absurd hf hv
          · exact ⟨it, h, hf⟩
        · rintro ⟨it, hit, hf⟩
          exact ⟨it, List.mem_cons_of_mem hd hit, hf⟩

/-- Every token emitted by the regex scan is a nonempty run of word
characters. -/
theorem scanToks_word :
    ∀ (l : List Char) (mode : Option (List Char)),
      (∀ acc, mode = some acc → acc.all isWordChar = true) →
      ∀ t ∈ scanToks mode l, t.data ≠ [] ∧ t.data.all isWordChar = true := by
  intro l
  induction l with
  | nil => intro mode _ t ht; simp [scanToks] at ht
  | cons c rest ih =>
      intro mode hmode t ht
      match mode with
      | none =>
          rw [scanToks] at ht
          by_cases hc : c = '['
          · rw [if_pos hc] at ht
            exact ih (some []) (by intro acc h; cases h; rfl) t ht
          · rw [if_neg hc] at ht
            exact ih none (by intro acc h; cases h) t ht
      | some acc =>
          have hacc : acc.all isWordChar = true := hmode acc rfl
          rw [scanToks] at ht
          by_cases hw : isWordChar c = true
          · rw [if_pos hw] at ht
            refine ih (some (c :: acc)) ?_ t ht
            intro acc2 h
            cases h
            simp [List.all_cons, hw, hacc]
          · rw [if_neg hw] at ht
            by_cases hcl : c = ']' ∧ acc ≠ []
            · rw [if_pos hcl] at ht
              rcases List.mem_cons.mp ht with h | h
              · subst h
                refine ⟨by simpa using hcl.2, ?_⟩
                simpa [List.all_reverse] using hacc
              · exact ih none (by intro acc2 h2; cases h2) t h
            · rw [if_neg hcl] at ht
              by_cases hc : c = '['
              · rw [if_pos hc] at ht
                exact ih (some []) (by intro acc2 h2; cases h2; rfl) t ht
              · rw [if_neg hc] at ht
                exact ih none (by intro acc2 h2; cases h2) t ht

/-! Claims. -/

/-- C1: the claim states that a set criteria priority matches by exact
equality for every value in {0,1,2,3}, and the module docstring advertises
`- priority: 0` as selecting all priority-0 tests. The code's clause
`c["priority"] and c["priority"] == i["priority"]` treats the falsy integer
`0` as unset, so a criteria priority of `0` matches nothing — even an item
of priority `0` — while nonzero priorities do match by exact equality. -/
theorem priority_zero_never_matches :
    prio0crit.priority = some 0 ∧ prio0meta.priority = 0 ∧
    priorityClause prio0crit prio0meta = false ∧
    matchesItem prio0crit prio0item = false ∧
    priorityClause prio1crit prio1meta = true ∧
    priorityClause prio1crit prio0meta = false := by
  decide

/-- C2: a record matches an item exactly when the item carries metadata and
at least one of the six per-field clauses is satisfied (disjunction across
fields), and a record with every constrained field unset (the schema
defaults) matches no item. -/
theorem matches_disjunction (c : Criteria) (it : Item) :
    (matchesItem c it = true ↔ ∃ m, it.mark = some m ∧
        (nameClause c it || moduleClause c it || areaClause c m ||
          categoryClause c m || priorityClause c m || tagsClause c m) = true) ∧
    (c.name = none → c.module = none → c.area = none → c.category = none →
      c.priority = none → c.tags = [] → matchesItem c it = false) := by
  constructor
  · cases hm : it.mark with
    | none => simp [matchesItem, hm]
    | some m => simp [matchesItem, hm]
  · intro h1 h2 h3 h4 h5 h6
    cases hm : it.mark with
    | none => simp [matchesItem, hm]
    | some m =>
        simp [matchesItem, hm, nameClause, moduleClause, areaClause,
          categoryClause, priorityClause, tagsClause, h1, h2, h3, h4, h5, h6]

theorem matches_disjunction_witness : matchesItem emptyCrit plainItem = false :=
  (matches_disjunction emptyCrit plainItem).2 rfl rfl rfl rfl rfl rfl

/-- C3 counterexample: the single matching non-exclude record has `times`
`-1`, so the claim predicts `max(-1) = -1` occurrences of the item in
`included`; the engine appends `range(-1 - 0) = 0` copies, leaving the
count at `0 ≠ -1`. -/
theorem times_max_counterexample :
    (([negTimesCrit].filter fun c => matchesItem c negTimesItem && !c.exclude).map
        fun c => c.times) = [-1] ∧
    ((runCriteria [negTimesCrit] [negTimesItem]).included.count negTimesItem : Int) ≠ -1 := by
  decide

/-- C3 (amended): for an item of the collection, the number of its
occurrences in `included` after all criteria is `max(0, t1, ..., tn)` over
the `times` of the matching non-exclude records — each record tops the
running count up to its own `times`, a record at or below the current count
appends nothing, and `times` values below zero behave as zero. -/
theorem included_count_clamped_max (cs : List Criteria) (items : List Item)
    (i : Item) (hi : i ∈ items) :
    ((runCriteria cs items).included.count i : Int) =
      ((cs.filter fun c => matchesItem c i && !c.exclude).map fun c => c.times).foldl
        (fun a t => max a t) 0 := by
  have h0 : (runCriteria cs items).included.count i =
      ((cs.filter fun c => matchesItem c i && !c.exclude).map fun c => c.times).foldl
        (fun a t => max a t.toNat) 0 := by
    rw [runCriteria]
    simpa using foldl_applyCriteria_count items i hi cs ⟨[], []⟩
  rw [h0, foldl_toNat_cast]
  simp

theorem included_count_clamped_max_witness :
    ((runCriteria [cwA, cwB] [cwItem]).included.count cwItem : Int) = 3 :=
  (included_count_clamped_max [cwA, cwB] [cwItem] cwItem (by decide)).trans (by decide)

/-- C4: an item of the collection matched by at least one excluding record
is absent from the final result, regardless of how often it was included;
the final result is an order-preserving sublist of the (post-fallback)
included list, and every item not in `excluded` keeps all its
occurrences. -/
theorem exclusion_wins (cs : List Criteria) (items : List Item) (i : Item)
    (hi : i ∈ items) (hc : ∃ c ∈ cs, c.exclude = true ∧ matchesItem c i = true) :
    i ∉ selectItems cs items ∧
    (selectItems cs items).Sublist (finalIncluded cs items) ∧
    ∀ j : Item, ((runCriteria cs items).excluded.contains j) = false →
      (selectItems cs items).count j = (finalIncluded cs items).count j := by
  have hex : i ∈ (runCriteria cs items).excluded := by
    rcases hc with ⟨c, hc1, hc2, hc3⟩
    exact (runCriteria_excluded_mem i items cs).mpr ⟨c, hc1, hc2, hc3, hi⟩
  refine ⟨?_, List.filter_sublist _, ?_⟩
  · intro hmem
    rw [selectItems] at hmem
    have hsplit := List.mem_filter.mp hmem
    have hcont : (runCriteria cs items).excluded.contains i = true := by
      exact List.elem_iff.mpr hex
    simp [hcont] at hsplit
    exact hsplit.2 hex
  · intro j hj
    rw [selectItems]
    refine List.count_filter ?_
    show (!(runCriteria cs items).excluded.contains j) = true
    rw [hj]
    rfl

theorem exclusion_wins_witness : exItem ∉ selectItems [exCrit1, exCrit2] [exItem] :=
  (exclusion_wins [exCrit1, exCrit2] [exItem] exItem (by decide)
    ⟨exCrit2, by decide, by decide, by decide⟩).1

/-- C5: whenever `included` is empty after all criteria (in particular for
an empty criteria list), the engine falls back to the full original
collection, once each in order, and still applies exclusions; with purely
excluding criteria the final result is exactly the non-matching items in
original order. -/
theorem fallback_runs_all (cs : List Criteria) (items : List Item) :
    ((runCriteria cs items).included = [] →
      selectItems cs items =
        items.filter fun i => !((runCriteria cs items).excluded.contains i)) ∧
    ((∀ c ∈ cs, c.exclude = true) →
      (runCriteria cs items).included = [] ∧
      selectItems cs items = items.filter fun i => !(cs.any fun c => matchesItem c i)) := by
  have hfb : (runCriteria cs items).included = [] → finalIncluded cs items = items := by
    intro h
    simp [finalIncluded, h]
  constructor
  · intro h
    rw [selectItems, hfb h]
  · intro hall
    have hinc : (runCriteria cs items).included = [] := by
      have main : ∀ (cs2 : List Criteria) (st : SelState), (∀ c ∈ cs2, c.exclude = true) →
          (cs2.foldl (applyCriteria items) st).included = st.included := by
        intro cs2
        induction cs2 with
        | nil => intro st _; rfl
        | cons c cs2 ih =>
            intro st h
            rw [List.foldl_cons,
              ih _ (fun d hd => h d (List.mem_cons_of_mem c hd)),
              applyCriteria_included_of_exclude c (h c (List.mem_cons_self c cs2))]
      rw [runCriteria]
      exact main cs ⟨[], []⟩ hall
    refine ⟨hinc, ?_⟩
    rw [selectItems, hfb hinc]
    refine List.filter_congr ?_
    intro a ha
    have hbool : ∀ (x y : Bool), (x = true ↔ y = true) → x = y := by decide
    have hiff : ((runCriteria cs items).excluded.contains a = true) ↔
        ((cs.any fun c => matchesItem c a) = true) := by
      constructor
      · intro h
        have hmem : a ∈ (runCriteria cs items).excluded := List.elem_iff.mp h
        rcases (runCriteria_excluded_mem a items cs).mp hmem with ⟨c, hc1, -, hc3, -⟩
        exact List.any_eq_true.mpr ⟨c, hc1, hc3⟩
      · intro h
        rcases List.any_eq_true.mp h with ⟨c, hc1, hc2⟩
        have hmem : a ∈ (runCriteria cs items).excluded :=
          (runCriteria_excluded_mem a items cs).mpr ⟨c, hc1, hall c hc1, hc2, ha⟩
        exact List.elem_iff.mpr hmem
    exact congrArg (fun b => !b) (hbool _ _ hiff)

theorem fallback_runs_all_witness :
    selectItems [xdpCrit] [xd1, xd2, xd3, xd4, xd5] = [xd2, xd4, xd5] :=
  ((fallback_runs_all [xdpCrit] [xd1, xd2, xd3, xd4, xd5]).2 (by decide)).2.trans
    (by decide)

/-- C6: scenario 1 — items `t1(priority 1, net)`, `t2(priority 2, net)`,
`t3(priority 1, disk)` with the single record `{priority: 1, times: 2}`
select exactly `[t1, t1, t3, t3]`: matches are topped up in collection
order, `t2` is not selected, and the fallback does not fire. -/
theorem scenario_one_selection :
    selectItems [s1crit] [s1t1, s1t2, s1t3] = [s1t1, s1t1, s1t3, s1t3] := by
  decide

/-- C7 counterexample: an invalid enumerated category (`"functional"`)
makes `lisa_schema.validate` raise plain `SchemaError`, which the
`except (SchemaMissingKeyError, AssertionError)` clause does not catch —
the run aborts on an uncaught error instead of the `pytest.exit` message
naming the item, refuting the claim that every schema violation (including
invalid enumerated values) aborts with a message naming the offending item
and the cause. -/
theorem schema_error_escapes_uncaught :
    validate_mark (some badMark) = some MarkError.schemaError ∧
    markErrorCaught MarkError.schemaError = false ∧
    validationOutcome [badItem] = RunOutcome.uncaughtError ∧
    validationOutcome [badItem] ≠ RunOutcome.namedExit "t_bad" := by
  decide

/-- C7 (amended): an item without a `lisa` marker validates trivially, and
any present-but-invalid metadata aborts the whole run during collection,
before any test executes — but the abort message names the offending item
and the cause only for the caught exception classes, positional arguments
(`AssertionError`) and a missing required key (`SchemaMissingKeyError`);
an invalid enumerated `category`/`priority` raises plain `SchemaError`,
which the `except` clause does not catch, so that class aborts the run as
an uncaught error without the naming message. -/
theorem validation_exemption_and_abort (items : List RawItem) :
    validate_mark none = none ∧
    (∀ m : RawMark, m.argCount ≠ 0 →
      validate_mark (some m) = some MarkError.assertionError) ∧
    (∀ m : RawMark, ∀ cstr, m.argCount = 0 → m.category = some cstr →
      validCategory cstr = false →
      validate_mark (some m) = some MarkError.schemaError) ∧
    (∀ m : RawMark, ∀ p, m.argCount = 0 →
      (∀ cstr, m.category = some cstr → validCategory cstr = true) →
      m.priority = some p → validPriority p = false →
      validate_mark (some m) = some MarkError.schemaError) ∧
    (∀ m : RawMark, m.argCount = 0 → m.platform = none →
      (∀ cstr, m.category = some cstr → validCategory cstr = true) →
      (∀ p, m.priority = some p → validPriority p = true) →
      validate_mark (some m) = some MarkError.missingKey) ∧
    markErrorCaught MarkError.assertionError = true ∧
    markErrorCaught MarkError.missingKey = true ∧
    markErrorCaught MarkError.schemaError = false ∧
    (validationOutcome items = RunOutcome.proceeds ↔
      ∀ it ∈ items, validate_mark it.mark = none) ∧
    (∀ j : RawItem, ∀ e : MarkError, firstInvalid items = some j →
      validate_mark j.mark = some e →
      validationOutcome items =
        if markErrorCaught e then RunOutcome.namedExit j.name
        else RunOutcome.uncaughtError) := by
  refine ⟨rfl, ?_, ?_, ?_, ?_, rfl, rfl, rfl, ?_, ?_⟩
  · intro m h
    simp [validate_mark, h]
  · intro m cstr h0 h1 h2
    simp [validate_mark, lisa_schema_error, h0, h1, h2]
  · intro m p h0 hcat hp hval
    have hcatok : (match m.category with | some c => !validCategory c | none => false)
        = false := by
      cases hc : m.category with
      | none => rfl
      | some c => simp [hcat c hc]
    simp [validate_mark, lisa_schema_error, h0, hcatok, hp, hval]
  · intro m h0 hplat hcat hpri
    have hcatok : (match m.category with | some c => !validCategory c | none => false)
        = false := by
      cases hc : m.category with
      | none => rfl
      | some c => simp [hcat c hc]
    have hpriok : (match m.priority with | some p => !validPriority p | none => false)
        = false := by
      cases hq : m.priority with
      | none => rfl
      | some q => simp [hpri q hq]
    simp [validate_mark, lisa_schema_error, h0, hcatok, hpriok, hplat]
  · constructor
    · intro h it hit
      by_contra hne
      have hsome : (validate_mark it.mark).isSome = true := by
        cases hv : validate_mark it.mark with
        | none => exact absurd hv hne
        | some e => rfl
      rcases (firstInvalid_spec items).mp ⟨it, hit, hsome⟩ with ⟨j, hj, hjs⟩
      cases hv : validate_mark j.mark with
      | none =>
          rw [hv] at hjs
          simp at hjs
      | some e =>
          simp only [validationOutcome, hj, hv] at h
          split at h <;> simp at h
    · intro h
      rw [validationOutcome]
      cases hj : firstInvalid items with
      | none => rfl
      | some j =>
          have hj2 : items.find? (fun it => (validate_mark it.mark).isSome) = some j := hj
          have hmem : j ∈ items := List.mem_of_find?_eq_some hj2
          have hp := List.find?_some hj2
          rw [h j hmem] at hp
          simp at hp
  · intro j e hj he
    simp [validationOutcome, hj, he]

theorem validation_exemption_and_abort_witness :
    validationOutcome [argsBadItem] = RunOutcome.namedExit "t_args" :=
  ((validation_exemption_and_abort [argsBadItem]).2.2.2.2.2.2.2.2.2 argsBadItem
      MarkError.assertionError (by decide) (by decide)).trans (by decide)

/-- C8: scope extraction — identifiers with bracketed parameter tokens map
to the left-to-right `/`-join of the tokens (`mod::test_f[A] ↦ "A"`,
`mod::test_g[A][B] ↦ "A/B"`), and identifiers without a bracket fall back
to the enclosing-scope rule, the text before the last `::`. -/
theorem scope_extraction :
    split_scope "mod::test_f[A]" = "A" ∧
    split_scope "mod::test_f[B]" = "B" ∧
    split_scope "mod::test_g[A][B]" = "A/B" ∧
    (∀ s : String, s.data.contains '[' = false → split_scope s = rsplitScope s) ∧
    split_scope "example/test_module.py::test_function" = "example/test_module.py" ∧
    rsplitScope "mod::test_h" = "mod" := by
  refine ⟨by decide, by decide, by decide, ?_, by decide, by decide⟩
  intro s h
  have h2 : ¬(s.data.contains '[' = true) := by
    rw [h]
    exact Bool.false_ne_true
  simp only [split_scope]
  rw [if_neg h2]

theorem scope_extraction_witness : split_scope "mod::test_h" = "mod" :=
  (scope_extraction.2.2.2.1 "mod::test_h" (by decide)).trans (by decide)

/-- C9: only bracketed tokens made purely of word characters are extracted:
every emitted token is a nonempty all-word-character string, a token such
as `a-b` is silently dropped from the join, and an identifier whose only
bracketed tokens are non-word yields the empty scope instead of the
enclosing-scope fallback. -/
theorem scope_word_tokens_only :
    (∀ (l : List Char) (t : String), t ∈ findToks l →
      t.data ≠ [] ∧ t.data.all isWordChar = true) ∧
    split_scope "test[a-b]" = "" ∧
    split_scope "mod::test_g[A][a-b]" = "A" ∧
    findToks "test[a-b]".data = [] := by
  refine ⟨?_, by decide, by decide, by decide⟩
  intro l t ht
  exact scanToks_word l none (by intro acc h; cases h) t ht

theorem scope_word_tokens_only_witness :
    ("A" : String).data ≠ [] ∧ ("A" : String).data.all isWordChar = true :=
  scope_word_tokens_only.1 "x[A]".data "A" (by decide)

/-- C10: the `select` helper only ever appends — exactly
`max(0, times - count)` copies, so the count becomes `max(count, times)`
clamped at zero and never decreases across criteria passes; a record with
`times ≤ 0` appends nothing, and when every matching record is such a
record the included list stays empty, nothing is excluded, and the
fallback makes the final result the full collection, once each. -/
theorem select_topup_monotone :
    (∀ (st : SelState) (i : Item) (t : Int),
      (select st i t false).included =
        st.included ++ List.replicate (t - (st.included.count i : Int)).toNat i) ∧
    (∀ (st : SelState) (i : Item) (t : Int),
      (select st i t false).included.count i = max (st.included.count i) t.toNat) ∧
    (∀ (st : SelState) (i : Item) (t : Int), t ≤ 0 →
      (select st i t false).included = st.included) ∧
    (∀ (items : List Item) (st : SelState) (c : Criteria) (i : Item),
      st.included.count i ≤ (applyCriteria items st c).included.count i) ∧
    (∀ (cs : List Criteria) (items : List Item),
      (∀ c ∈ cs, ∀ i ∈ items, matchesItem c i = true → c.exclude = false ∧ c.times ≤ 0) →
      (runCriteria cs items).included = [] ∧ (runCriteria cs items).excluded = [] ∧
      selectItems cs items = items) := by
  refine ⟨fun st i t => rfl, count_select_self, ?_, ?_, ?_⟩
  · intro st i t ht
    have hn : (t - (st.included.count i : Int)).toNat = 0 := by omega
    simp [select, hn]
  · intro items st c i
    exact applyCriteria_count_mono c i items st
  · intro cs items h
    have hrun : runCriteria cs items = ⟨[], []⟩ := by
      have main : ∀ (cs2 : List Criteria),
          (∀ c ∈ cs2, ∀ i ∈ items, matchesItem c i = true →
            c.exclude = false ∧ c.times ≤ 0) →
          ∀ st : SelState, cs2.foldl (applyCriteria items) st = st := by
        intro cs2
        induction cs2 with
        | nil => intro _ st; rfl
        | cons c cs2 ih =>
            intro h2 st
            rw [List.foldl_cons,
              applyCriteria_id_of_low_times c items st (h2 c (List.mem_cons_self c cs2)),
              ih (fun d hd => h2 d (List.mem_cons_of_mem c hd)) st]
      rw [runCriteria]
      exact main cs h ⟨[], []⟩
    refine ⟨by rw [hrun], by rw [hrun], ?_⟩
    simp [selectItems, finalIncluded, hrun]

theorem select_topup_monotone_witness :
    selectItems [lowCrit] [lowItem] = [lowItem] :=
  (select_topup_monotone.2.2.2.2 [lowCrit] [lowItem] (by decide)).2.2

end Lisa
